import Mathlib

/-!
Verification development for the batch accumulation and memory-aware
balancing subsystem (SquashingTransform.cpp / SquashingTransform.h).

A Block is modelled as its list of columns; each column is a list of cell
values.  Cell byte sizes are abstracted by a size function so that both
the row and the byte thresholds can be exercised.  Stateful C++ classes
become Lean structures with explicit state passing; the exception thrown
by SquashingTransform::isEnoughSize becomes an Except value.
-/

deriving instance DecidableEq for Except

namespace SquashSpec

/-- A columnar block: the list of its columns, each column a list of cells.
The end-of-stream sentinel is the block with no columns at all. -/
abbrev Block (α : Type) := List (List α)

/-- Byte size of one column, as the sum of its cells' sizes under the
abstract cell-size function. -/
def colBytes (sz : α → Nat) (c : List α) : Nat := (c.map sz).sum

/-- Column at position i of a block; the empty column when out of range. -/
def col (i : Nat) (b : Block α) : List α := b.getD i []

/-- Per-column concatenation of a list of blocks. -/
def catCol (i : Nat) (bs : List (Block α)) : List α := (bs.map (col i)).flatten

/-- Threshold configuration shared by every transform: minimum rows and
minimum bytes, OR-combined, each condition ignored when zero. -/
structure SqParams where
  min_block_size_rows : Nat
  min_block_size_bytes : Nat
deriving DecidableEq

/-- Mirrors isEnoughSize(size_t rows, size_t bytes): both thresholds zero,
or a nonzero row threshold reached, or a nonzero byte threshold reached. -/
def isEnoughSizeRB (p : SqParams) (rows bytes : Nat) : Bool :=
  (p.min_block_size_rows == 0 && p.min_block_size_bytes == 0)
  || (p.min_block_size_rows != 0 && decide (p.min_block_size_rows ≤ rows))
  || (p.min_block_size_bytes != 0 && decide (p.min_block_size_bytes ≤ bytes))

/-- Mirrors the loop of SquashingTransform::isEnoughSize(const Block &):
rows starts at 0 and is set from the first column whose size is nonzero;
a later column whose size differs from the recorded nonzero rows value
raises SIZES_OF_COLUMNS_DOESNT_MATCH (modelled as the error case);
bytes accumulates every visited column's byte size. -/
def blockSizes (sz : α → Nat) : Block α → Nat → Nat → Except Unit (Nat × Nat)
  | [], rows, bytes => .ok (rows, bytes)
  | c :: cs, rows, bytes =>
    if rows = 0 then blockSizes sz cs c.length (bytes + colBytes sz c)
    else if rows ≠ c.length then .error ()
    else blockSizes sz cs rows (bytes + colBytes sz c)

/-- Mirrors SquashingTransform::isEnoughSize(const Block &): compute the
row/byte totals (possibly raising the column-size-mismatch error), then
apply the threshold predicate. -/
def isEnoughSizeBlock (sz : α → Nat) (p : SqParams) (b : Block α) : Except Unit Bool :=
  match blockSizes sz b 0 0 with
  | .error e => .error e
  | .ok (rows, bytes) => .ok (isEnoughSizeRB p rows bytes)

/-- State of the eager squasher: the threshold configuration and the
accumulated block (the empty list of columns standing for no block). -/
structure SquashingTransform (α : Type) where
  params : SqParams
  accumulated_block : Block α
deriving DecidableEq

/-- Mirrors SquashingTransform::append: an empty accumulation is replaced
by the input block; otherwise each input column is appended onto the
accumulated column at the same position. -/
def appendBlock (acc input : Block α) : Block α :=
  if acc.isEmpty then input
  else List.zipWith (fun c d => c ++ d) acc input

/-- Mirrors SquashingTransform::addImpl.  The sentinel (no columns) swaps
out the accumulation; an input meeting the threshold is returned directly
when nothing is accumulated, and otherwise swapped with the accumulation;
an already-enough accumulation is likewise swapped out; otherwise the
input is appended and the grown accumulation is flushed exactly when it
now meets the threshold. -/
def SquashingTransform.addImpl (sz : α → Nat) (st : SquashingTransform α)
    (input : Block α) : Except Unit (Block α × SquashingTransform α) :=
  if input.isEmpty then
    .ok (st.accumulated_block, { st with accumulated_block := [] })
  else
    match isEnoughSizeBlock sz st.params input with
    | .error e => .error e
    | .ok true =>
        if st.accumulated_block.isEmpty then .ok (input, st)
        else .ok (st.accumulated_block, { st with accumulated_block := input })
    | .ok false =>
        match isEnoughSizeBlock sz st.params st.accumulated_block with
        | .error e => .error e
        | .ok true => .ok (st.accumulated_block, { st with accumulated_block := input })
        | .ok false =>
            match isEnoughSizeBlock sz st.params (appendBlock st.accumulated_block input) with
            | .error e => .error e
            | .ok true =>
                .ok (appendBlock st.accumulated_block input, { st with accumulated_block := [] })
            | .ok false =>
                .ok ([], { st with accumulated_block := appendBlock st.accumulated_block input })

/-- Feed a list of blocks one at a time, collecting every returned block. -/
def SquashingTransform.runAdds (sz : α → Nat) :
    SquashingTransform α → List (Block α) →
    Except Unit (List (Block α) × SquashingTransform α)
  | st, [] => .ok ([], st)
  | st, b :: bs =>
    match st.addImpl sz b with
    | .error e => .error e
    | .ok (out, st') =>
      match SquashingTransform.runAdds sz st' bs with
      | .error e => .error e
      | .ok (outs, st'') => .ok (out :: outs, st'')

/-- Feed a list of blocks followed by the end-of-stream sentinel and
collect every returned block, the final drain included. -/
def SquashingTransform.feedAll (sz : α → Nat) (st : SquashingTransform α)
    (inputs : List (Block α)) : Except Unit (List (Block α)) :=
  match SquashingTransform.runAdds sz st inputs with
  | .error e => .error e
  | .ok (outs, st') =>
    match st'.addImpl sz [] with
    | .error e => .error e
    | .ok (last, _) => .ok (outs ++ [last])

/-- Condition under which the size-computation loop raises the
column-size-mismatch error: after the leading zero-length columns, some
column's length differs from the first nonzero column length. -/
def mismatchCols (b : Block α) : Bool :=
  match (b.map List.length).dropWhile (fun n => n == 0) with
  | [] => false
  | r :: rest => rest.any (fun x => x != r)

theorem blockSizes_error_of_ne (sz : α → Nat) (cs : List (List α)) (rows : Nat)
    (h : rows ≠ 0) : ∀ bytes : Nat,
    (blockSizes sz cs rows bytes = .error () ↔ cs.any (fun c => c.length != rows) = true) := by
  induction cs with
  | nil => intro bytes; simp [blockSizes]
  | cons c cs ih =>
    intro bytes
    by_cases hc : rows = c.length
    · simp only [blockSizes, if_neg h, if_neg (by omega : ¬ rows ≠ c.length)]
      rw [ih (bytes + colBytes sz c)]
      simp [hc]
    · simp only [blockSizes, if_neg h, if_pos hc]
      constructor
      · intro _
        simp only [List.any_cons, Bool.or_eq_true, bne_iff_ne, Ne]
        left
        omega
      · intro _
        trivial

theorem blockSizes_error_zero (sz : α → Nat) (cs : List (List α)) : ∀ bytes : Nat,
    (blockSizes sz cs 0 bytes = .error () ↔ mismatchCols cs = true) := by
  induction cs with
  | nil => intro bytes; simp [blockSizes, mismatchCols]
  | cons c cs ih =>
    intro bytes
    have hstep : blockSizes sz (c :: cs) 0 bytes
        = blockSizes sz cs c.length (bytes + colBytes sz c) := by
      simp [blockSizes]
    rw [hstep]
    by_cases hc : c.length = 0
    · rw [hc, ih]
      simp [mismatchCols, List.dropWhile_cons, hc]
    · rw [blockSizes_error_of_ne sz cs c.length hc]
      simp [mismatchCols, List.dropWhile_cons, hc, List.any_map, Function.comp]

/-- Claim C8 (amended): in the Eager Squasher, add fails with
SIZES_OF_COLUMNS_DOESNT_MATCH on a batch exactly when some column after
the first nonzero-length column has a different length (columns differing
only inside a zero-length prefix are not detected); the failure is
decided by the size-computation loop alone, independent of the configured
thresholds, so it precedes any threshold computation. -/
theorem mismatch_detection (sz : α → Nat) (b : Block α) :
    (∀ p : SqParams, isEnoughSizeBlock sz p b = .error () ↔ mismatchCols b = true)
    ∧ (mismatchCols b = true → ∀ st : SquashingTransform α, st.addImpl sz b = .error ()) := by
  have hmain : ∀ p : SqParams, isEnoughSizeBlock sz p b = .error () ↔ mismatchCols b = true := by
    intro p
    unfold isEnoughSizeBlock
    rcases herr : blockSizes sz b 0 0 with e | v
    · cases e
      rw [← blockSizes_error_zero sz b 0]
      simp [herr]
    · constructor
      · intro hcontra; cases hcontra
      · intro hm
        rw [← blockSizes_error_zero sz b 0] at hm
        rw [herr] at hm
        cases hm
  refine ⟨hmain, ?_⟩
  intro hm st
  have hb : b.isEmpty = false := by
    cases b with
    | nil => simp [mismatchCols] at hm
    | cons c cs => rfl
  unfold SquashingTransform.addImpl
  rw [if_neg (by simp [hb])]
  rw [(hmain st.params).2 hm]

/-- Claim C8 counterexample: the block with two columns of lengths 0 and 1
has columns of differing lengths, yet add succeeds without any error
(the zero-length first column leaves the loop's row counter unset). -/
theorem mismatch_detection_counterexample :
    (col 0 [[], [5]]).length ≠ (col 1 ([[], [5]] : Block Nat)).length
    ∧ SquashingTransform.addImpl id ⟨⟨0, 0⟩, []⟩ [[], [5]]
        = .ok ([[], [5]], ⟨⟨0, 0⟩, []⟩) := by decide

/-- Witness for claim C8's amended theorem at a concrete mismatched block. -/
theorem mismatch_detection_witness :
    SquashingTransform.addImpl id ⟨⟨10, 0⟩, []⟩ [[1], [2, 3]] = .error () :=
  (mismatch_detection id [[1], [2, 3]]).2 (by decide) ⟨⟨10, 0⟩, []⟩

/-- Claim C7: when the incoming batch already meets the threshold and the
accumulation buffer is empty, add returns exactly the input batch and
leaves the buffer empty (zero-copy fast path, no concatenation). -/
theorem zero_copy_fast_path (sz : α → Nat) (p : SqParams) (b : Block α)
    (hb : b.isEmpty = false)
    (henough : isEnoughSizeBlock sz p b = .ok true) :
    SquashingTransform.addImpl sz ⟨p, []⟩ b = .ok (b, ⟨p, []⟩) := by
  unfold SquashingTransform.addImpl
  rw [if_neg (by simp [hb])]
  rw [henough]
  rfl

/-- Witness for claim C7 at a concrete already-big-enough block. -/
theorem zero_copy_fast_path_witness :
    SquashingTransform.addImpl id ⟨⟨2, 0⟩, []⟩ [[7, 8, 9]]
      = .ok ([[7, 8, 9]], ⟨⟨2, 0⟩, []⟩) :=
  zero_copy_fast_path id ⟨2, 0⟩ [[7, 8, 9]] (by decide) (by decide)

/-- Claim C2 (amended): every non-empty block returned by a non-sentinel
call either satisfies isEnoughSize, or is the previous (possibly
under-threshold) accumulation handed back by the flush-then-replace path
taken when the incoming batch itself satisfies isEnoughSize. -/
theorem nonfinal_output_enough (sz : α → Nat) (st : SquashingTransform α)
    (b out : Block α) (st' : SquashingTransform α)
    (hb : b.isEmpty = false) (hout : out.isEmpty = false)
    (h : st.addImpl sz b = .ok (out, st')) :
    isEnoughSizeBlock sz st.params out = .ok true
    ∨ (isEnoughSizeBlock sz st.params b = .ok true ∧ out = st.accumulated_block) := by
  unfold SquashingTransform.addImpl at h
  rw [if_neg (by simp [hb])] at h
  rcases h1 : isEnoughSizeBlock sz st.params b with e | eb
  · rw [h1] at h; cases h
  · rw [h1] at h
    cases eb with
    | true =>
      by_cases hacc : st.accumulated_block.isEmpty
      · rw [if_pos hacc] at h
        cases h
        exact Or.inl h1
      · rw [if_neg hacc] at h
        cases h
        exact Or.inr ⟨rfl, rfl⟩
    | false =>
      rcases h2 : isEnoughSizeBlock sz st.params st.accumulated_block with e | ea
      · rw [h2] at h; cases h
      · rw [h2] at h
        cases ea with
        | true => cases h; exact Or.inl h2
        | false =>
          rcases h3 : isEnoughSizeBlock sz st.params (appendBlock st.accumulated_block b) with e | en
          · rw [h3] at h; cases h
          · rw [h3] at h
            cases en with
            | true => cases h; exact Or.inl h3
            | false => cases h; cases hout

/-- Claim C2 counterexample: thresholds rows=10; feeding a 3-row batch and
then a 12-row batch makes the second (non-sentinel) call return the 3-row
accumulation, which does not satisfy isEnoughSize. -/
theorem nonfinal_output_enough_counterexample :
    SquashingTransform.runAdds id ⟨⟨10, 0⟩, []⟩
        [[[1, 1, 1]], [[2, 2, 2, 2, 2, 2, 2, 2, 2, 2, 2, 2]]]
      = .ok ([[], [[1, 1, 1]]], ⟨⟨10, 0⟩, [[2, 2, 2, 2, 2, 2, 2, 2, 2, 2, 2, 2]]⟩)
    ∧ isEnoughSizeBlock id ⟨10, 0⟩ [[1, 1, 1]] = .ok false := by decide

/-- Witness for claim C2's amended theorem: the flush-then-replace call
above returns the old accumulation while the input was itself enough. -/
theorem nonfinal_output_enough_witness :
    isEnoughSizeBlock id (⟨10, 0⟩ : SqParams) [[1, 1, 1]] = .ok true
    ∨ (isEnoughSizeBlock id (⟨10, 0⟩ : SqParams) [[2, 2, 2, 2, 2, 2, 2, 2, 2, 2, 2, 2]] = .ok true
        ∧ [[1, 1, 1]] = ([[1, 1, 1]] : Block Nat)) :=
  nonfinal_output_enough id ⟨⟨10, 0⟩, [[1, 1, 1]]⟩
    [[2, 2, 2, 2, 2, 2, 2, 2, 2, 2, 2, 2]] [[1, 1, 1]]
    ⟨⟨10, 0⟩, [[2, 2, 2, 2, 2, 2, 2, 2, 2, 2, 2, 2]]⟩ (by decide) (by decide) (by decide)

/-- One evaluation of the wait-loop exit test in
checkAndWaitMemoryAvailability against a snapshot of the memory tracker.
In the source, hard_limit is the boolean value of the comparison
getHardLimit() != 0, so free_memory is that boolean promoted to an
integer minus the current usage; the loop is entered only when hard_limit
holds and exits when the requested bytes fall below free_memory.  This
function is true exactly when the source proceeds past the gate at the
given snapshot. -/
def gateReturns (hardLimitVal usage : Int) (bytes : Nat) : Bool :=
  if decide (hardLimitVal ≠ 0) then
    decide ((bytes : Int) < (if decide (hardLimitVal ≠ 0) then (1 : Int) else 0) - usage)
  else true

/-- Claim C4: whenever the gate lets the caller proceed (at a tracker
snapshot with a non-negative hard limit), either the hard limit is zero
or the hard limit minus the current usage strictly exceeds the requested
bytes; the caller never proceeds while the prospective addition would
exceed the ceiling. -/
theorem gate_admission_safety (hardLimitVal usage : Int) (bytes : Nat)
    (hnn : 0 ≤ hardLimitVal)
    (hret : gateReturns hardLimitVal usage bytes = true) :
    hardLimitVal = 0 ∨ hardLimitVal - usage > (bytes : Int) := by
  by_cases h : hardLimitVal = 0
  · exact Or.inl h
  · right
    unfold gateReturns at hret
    simp [h] at hret
    omega

/-- Witness for claim C4 at a concrete snapshot where the gate proceeds. -/
theorem gate_admission_safety_witness :
    (100 : Int) = 0 ∨ (100 : Int) - (-30) > ((20 : Nat) : Int) :=
  gate_admission_safety 100 (-30) 20 (by decide) (by decide)

theorem col_zipWith (acc b : Block α) (h : acc.length = b.length) (i : Nat) :
    col i (List.zipWith (fun c d => c ++ d) acc b) = col i acc ++ col i b := by
  induction acc generalizing b i with
  | nil =>
    cases b with
    | nil => simp [col]
    | cons x xs => simp at h
  | cons a as ih =>
    cases b with
    | nil => simp at h
    | cons x xs =>
      cases i with
      | zero => simp [col]
      | succ n => simpa [col] using ih xs (by simpa using h) n

theorem col_appendBlock (acc b : Block α)
    (h : acc = [] ∨ acc.length = b.length) (i : Nat) :
    col i (appendBlock acc b) = col i acc ++ col i b := by
  rcases h with h | h
  · subst h; simp [appendBlock, col]
  · rcases acc with _ | ⟨a, as⟩
    · simp [appendBlock, col]
    · rw [appendBlock, if_neg (by simp)]
      exact col_zipWith _ _ h i

theorem appendBlock_length (acc b : Block α)
    (h : acc = [] ∨ acc.length = b.length) :
    (appendBlock acc b).length = b.length := by
  rcases h with h | h
  · subst h; simp [appendBlock]
  · rcases acc with _ | ⟨a, as⟩
    · simp [appendBlock]
    · rw [appendBlock, if_neg (by simp)]
      simp [h]

theorem addImpl_cols (sz : α → Nat) (st : SquashingTransform α) (b out : Block α)
    (st' : SquashingTransform α) (k : Nat)
    (hb : b.length = k) (hk : 0 < k)
    (hacc : st.accumulated_block = [] ∨ st.accumulated_block.length = k)
    (h : st.addImpl sz b = .ok (out, st')) :
    (∀ i, col i out ++ col i st'.accumulated_block
        = col i st.accumulated_block ++ col i b)
    ∧ (st'.accumulated_block = [] ∨ st'.accumulated_block.length = k)
    ∧ st'.params = st.params := by
  have hlen : st.accumulated_block = [] ∨ st.accumulated_block.length = b.length := by
    rcases hacc with h' | h'
    · exact Or.inl h'
    · exact Or.inr (by rw [h', hb])
  have hbne : b.isEmpty = false := by
    cases b with
    | nil => simp at hb; omega
    | cons c cs => rfl
  unfold SquashingTransform.addImpl at h
  rw [if_neg (by simp [hbne])] at h
  rcases h1 : isEnoughSizeBlock sz st.params b with e | eb
  · rw [h1] at h; cases h
  · rw [h1] at h
    cases eb with
    | true =>
      by_cases hacc2 : st.accumulated_block.isEmpty
      · rw [if_pos hacc2] at h
        cases h
        have hnil : st.accumulated_block = [] := List.isEmpty_iff.mp hacc2
        refine ⟨?_, ?_, rfl⟩
        · intro i; rw [hnil]; simp [col]
        · exact Or.inl hnil
      · rw [if_neg hacc2] at h
        cases h
        exact ⟨fun i => rfl, Or.inr hb, rfl⟩
    | false =>
      rcases h2 : isEnoughSizeBlock sz st.params st.accumulated_block with e | ea
      · rw [h2] at h; cases h
      · rw [h2] at h
        cases ea with
        | true =>
          cases h
          exact ⟨fun i => rfl, Or.inr hb, rfl⟩
        | false =>
          rcases h3 : isEnoughSizeBlock sz st.params
              (appendBlock st.accumulated_block b) with e | en
          · rw [h3] at h; cases h
          · rw [h3] at h
            cases en with
            | true =>
              cases h
              refine ⟨?_, Or.inl rfl, rfl⟩
              intro i
              simp only [col_appendBlock st.accumulated_block b hlen i]
              simp [col]
            | false =>
              cases h
              refine ⟨?_, ?_, rfl⟩
              · intro i
                simp only [col_appendBlock st.accumulated_block b hlen i]
                simp [col]
              · exact Or.inr (by rw [appendBlock_length st.accumulated_block b hlen, hb])

theorem runAdds_cols (sz : α → Nat) (k : Nat) (inputs : List (Block α)) :
    ∀ st : SquashingTransform α, ∀ outs : List (Block α),
    ∀ st' : SquashingTransform α,
    (∀ b ∈ inputs, b.length = k) → 0 < k →
    (st.accumulated_block = [] ∨ st.accumulated_block.length = k) →
    SquashingTransform.runAdds sz st inputs = .ok (outs, st') →
    (∀ i, catCol i outs ++ col i st'.accumulated_block
        = col i st.accumulated_block ++ catCol i inputs) := by
  induction inputs with
  | nil =>
    intro st outs st' hin hk hacc h
    cases h
    intro i
    simp [catCol]
  | cons b bs ih =>
    intro st outs st' hin hk hacc h
    rcases hstep : st.addImpl sz b with e | ⟨out, st1⟩
    · simp only [SquashingTransform.runAdds, hstep] at h
      cases h
    · simp only [SquashingTransform.runAdds, hstep] at h
      rcases hrest : SquashingTransform.runAdds sz st1 bs with e | ⟨outs1, st2⟩
      · simp only [hrest] at h
        cases h
      · simp only [hrest, Except.ok.injEq, Prod.mk.injEq] at h
        obtain ⟨ho, hs⟩ := h
        subst ho
        subst hs
        have hone := addImpl_cols sz st b out st1 k
          (hin b (by simp)) hk hacc hstep
        have hrec := ih st1 outs1 st2 (fun x hx => hin x (by simp [hx])) hk
          hone.2.1 hrest
        intro i
        have e1 := hone.1 i
        have e2 := hrec i
        simp only [catCol, List.map_cons, List.flatten_cons] at e2 ⊢
        calc (col i out ++ (outs1.map (col i)).flatten) ++ col i st2.accumulated_block
            = col i out ++ ((outs1.map (col i)).flatten ++ col i st2.accumulated_block) := by
              simp [List.append_assoc]
          _ = col i out ++ (col i st1.accumulated_block ++ (bs.map (col i)).flatten) := by
              rw [e2]
          _ = (col i out ++ col i st1.accumulated_block) ++ (bs.map (col i)).flatten := by
              simp [List.append_assoc]
          _ = (col i st.accumulated_block ++ col i b) ++ (bs.map (col i)).flatten := by
              rw [e1]
          _ = col i st.accumulated_block ++ (col i b ++ (bs.map (col i)).flatten) := by
              simp [List.append_assoc]

theorem squash_feedAll_cols (sz : α → Nat) (p : SqParams) (k : Nat)
    (inputs outs : List (Block α))
    (hk : 0 < k) (hin : ∀ b ∈ inputs, b.length = k)
    (h : SquashingTransform.feedAll sz ⟨p, []⟩ inputs = .ok outs) :
    ∀ i, catCol i outs = catCol i inputs := by
  rcases hrun : SquashingTransform.runAdds sz ⟨p, []⟩ inputs with e | ⟨outs1, st'⟩
  · simp only [SquashingTransform.feedAll, hrun] at h
    cases h
  · have hlast : st'.addImpl sz []
        = .ok (st'.accumulated_block, { st' with accumulated_block := [] }) := rfl
    simp only [SquashingTransform.feedAll, hrun, hlast, Except.ok.injEq] at h
    subst h
    have hrec := runAdds_cols sz k inputs ⟨p, []⟩ outs1 st' hin hk (Or.inl rfl) hrun
    intro i
    have e := hrec i
    simp only [col] at e
    simp only [catCol, List.map_append, List.flatten_append, List.map_cons,
      List.flatten_cons, List.map_nil, List.flatten_nil, List.append_nil]
    simpa [catCol, col] using e

/-- Claim C1: feeding batches B1..Bn and then the end-of-stream sentinel
into the eager squasher loses no data and preserves order: for every
column position, the concatenation of the returned blocks' columns equals
the concatenation of the inputs' columns, and in particular the total
output row count equals the total input row count. -/
theorem squashing_preserves_data (sz : α → Nat) (p : SqParams) (k : Nat)
    (inputs outs : List (Block α))
    (hk : 0 < k) (hin : ∀ b ∈ inputs, b.length = k)
    (h : SquashingTransform.feedAll sz ⟨p, []⟩ inputs = .ok outs) :
    (∀ i, catCol i outs = catCol i inputs)
    ∧ (outs.map fun b => (col 0 b).length).sum
        = (inputs.map fun b => (col 0 b).length).sum := by
  have hcols := squash_feedAll_cols sz p k inputs outs hk hin h
  refine ⟨hcols, ?_⟩
  have h0 := hcols 0
  have hlen : (catCol 0 outs).length = (catCol 0 inputs).length := by rw [h0]
  simpa [catCol, List.length_flatten, Function.comp] using hlen

/-- Witness for claim C1 on a concrete run (rows threshold 2, inputs of
one row each, flushed as one two-row block plus empty drains). -/
theorem squashing_preserves_data_witness :
    catCol 0 [[], [[1, 2]], []] = catCol 0 ([[[1]], [[2]]] : List (Block Nat)) :=
  (squashing_preserves_data id ⟨2, 0⟩ 1 [[[1]], [[2]]] [[], [[1, 2]], []]
    (by decide) (by decide) (by decide)).1 0

/-- A raw chunk held in the balancer's pending list or carried by a
marker: its columns and its recorded row count (the source's Chunk
without attached info, as produced by cloning an input chunk). -/
structure RawChunk (α : Type) where
  columns : List (List α)
  numRows : Nat
deriving DecidableEq

/-- The deferred-squash marker payload (ChunksToSquash): the ordered list
of raw chunks to concatenate later.  The data_types field only supplies
column names and types, which carry no row data, so it is not modelled. -/
structure ChunksToSquash (α : Type) where
  chunks : List (RawChunk α)
deriving DecidableEq

/-- A chunk travelling between pipeline stages: columns, row count and
the optional attached marker info. -/
structure Chunk (α : Type) where
  columns : List (List α)
  numRows : Nat
  info : Option (ChunksToSquash α)
deriving DecidableEq

/-- Modelled from the spec: a batch's row count (Block::rows is not among
the sampled sources); every column of a well-formed batch holds the same
number of rows, zero when there are no columns, so the first column's
length is taken. -/
def blockRows (b : Block α) : Nat := (b.headD []).length

/-- Modelled from the spec: the boolean test the balancer applies to the
chunk built from the input block (Chunk's conversion is not among the
sampled sources); the end-of-stream sentinel is the empty batch, with no
columns and no rows. -/
def chunkTruthy (cols : Block α) (rows : Nat) : Bool :=
  !(cols.isEmpty && rows == 0)

/-- Byte size of a raw chunk: the sum of its columns' byte sizes. -/
def rawBytes (sz : α → Nat) (c : RawChunk α) : Nat :=
  (c.columns.map (colBytes sz)).sum

/-- Total row count of a pending list, as summed by
BalanceTransform::isEnoughSize. -/
def vecRows (v : List (RawChunk α)) : Nat := (v.map RawChunk.numRows).sum

/-- Total byte count of a pending list, as summed by
BalanceTransform::isEnoughSize and handed to the memory gate. -/
def vecBytes (sz : α → Nat) (v : List (RawChunk α)) : Nat :=
  (v.map (rawBytes sz)).sum

/-- Events observable during one balancer call: an invocation of the
Memory Admission Gate with the byte total passed to it, or a mutation of
the pending list (a clear or an append). -/
inductive BEvent
  | gateCall (bytes : Nat)
  | mutate
deriving DecidableEq

/-- State of the lazy balancer: thresholds, the header block used to
materialize marker chunks, and the pending list of raw chunks. -/
structure BalanceTransform (α : Type) where
  params : SqParams
  header : Block α
  chunks_to_merge_vec : List (RawChunk α)
deriving DecidableEq

/-- Mirrors Block::cloneEmptyColumns on the header: one empty column per
header column. -/
def cloneEmpty (header : Block α) : Block α := header.map (fun _ => [])

/-- Mirrors BalanceTransform::convertToChunk: an empty vector yields the
default chunk; otherwise a marker chunk over clones of the vector's
chunks is produced and the vector is cleared (a mutation event). -/
def BalanceTransform.convertToChunk (st : BalanceTransform α)
    (v : List (RawChunk α)) : Chunk α × List (RawChunk α) × List BEvent :=
  if v.isEmpty then (⟨[], 0, none⟩, v, [])
  else (⟨cloneEmpty st.header, 0, some ⟨v⟩⟩, [], [.mutate])

/-- Mirrors BalanceTransform::addImpl, additionally recording in program
order the gate invocations (with the byte total that isEnoughSize hands
to checkAndWaitMemoryAvailability) and the pending-list mutations.  A
falsy input chunk converts the pending list; otherwise the list is
cleared when already big enough, the cloned input chunk is appended, and
the grown list is converted exactly when it now meets the threshold,
the input chunk being returned unchanged otherwise. -/
def BalanceTransform.addImpl (sz : α → Nat) (st : BalanceTransform α)
    (input_block : Block α) : Chunk α × BalanceTransform α × List BEvent :=
  if chunkTruthy input_block (blockRows input_block) = false then
    let r := st.convertToChunk st.chunks_to_merge_vec
    (r.1, { st with chunks_to_merge_vec := r.2.1 }, r.2.2)
  else
    let e1 := isEnoughSizeRB st.params (vecRows st.chunks_to_merge_vec)
      (vecBytes sz st.chunks_to_merge_vec)
    let v1 := if e1 then [] else st.chunks_to_merge_vec
    let v2 := v1 ++ [⟨input_block, blockRows input_block⟩]
    let e2 := isEnoughSizeRB st.params (vecRows v2) (vecBytes sz v2)
    let evs := BEvent.gateCall (vecBytes sz st.chunks_to_merge_vec)
      :: ((if e1 then [BEvent.mutate] else []) ++ [BEvent.mutate]
          ++ [BEvent.gateCall (vecBytes sz v2)])
    if e2 then
      let r := st.convertToChunk v2
      (r.1, { st with chunks_to_merge_vec := r.2.1 }, evs ++ r.2.2)
    else
      (⟨input_block, blockRows input_block, none⟩,
        { st with chunks_to_merge_vec := v2 }, evs)

/-- Claim C10: every chunk returned by the balancer that carries a marker
has zero rows and a non-empty chunk list in it; the sentinel on an empty
pending list yields the plain default chunk with no marker attached. -/
theorem balance_marker_shape (sz : α → Nat) (st : BalanceTransform α) (b : Block α) :
    (∀ m : ChunksToSquash α, (st.addImpl sz b).1.info = some m →
        (st.addImpl sz b).1.numRows = 0 ∧ m.chunks ≠ [])
    ∧ (b = [] → st.chunks_to_merge_vec = [] →
        (st.addImpl sz b).1 = ⟨[], 0, none⟩) := by
  by_cases hb : chunkTruthy b (blockRows b) = false
  · by_cases hv : st.chunks_to_merge_vec.isEmpty
    · constructor
      · intro m hm
        simp [BalanceTransform.addImpl, BalanceTransform.convertToChunk, hb, hv] at hm
      · intro _ _
        simp [BalanceTransform.addImpl, BalanceTransform.convertToChunk, hb, hv]
    · constructor
      · intro m hm
        simp only [BalanceTransform.addImpl, BalanceTransform.convertToChunk, hb,
          if_true, eq_self_iff_true, if_neg hv] at hm ⊢
        simp at hm
        subst hm
        refine ⟨by simp [hb, BalanceTransform.convertToChunk, if_neg hv], ?_⟩
        intro hcontra
        have hnil : st.chunks_to_merge_vec = [] := hcontra
        rw [hnil] at hv
        simp at hv
      · intro _ hnil
        rw [hnil] at hv
        simp at hv
  · have hb' : chunkTruthy b (blockRows b) = true := by
      cases h : chunkTruthy b (blockRows b)
      · exact absurd h hb
      · rfl
    constructor
    · intro m hm
      by_cases he2 : isEnoughSizeRB st.params
          (vecRows ((if isEnoughSizeRB st.params (vecRows st.chunks_to_merge_vec)
              (vecBytes sz st.chunks_to_merge_vec) then []
            else st.chunks_to_merge_vec) ++ [⟨b, blockRows b⟩]))
          (vecBytes sz ((if isEnoughSizeRB st.params (vecRows st.chunks_to_merge_vec)
              (vecBytes sz st.chunks_to_merge_vec) then []
            else st.chunks_to_merge_vec) ++ [⟨b, blockRows b⟩])) = true
      · simp only [BalanceTransform.addImpl, BalanceTransform.convertToChunk,
          hb', Bool.true_eq_false, if_false, he2, if_true] at hm ⊢
        rw [if_neg (by simp)] at hm ⊢
        simp at hm
        subst hm
        simp
      · simp [BalanceTransform.addImpl, hb', he2] at hm
    · intro hbnil
      rw [hbnil] at hb'
      simp [chunkTruthy, blockRows] at hb'

/-- Witness for claim C10: the sentinel fed to a balancer with an empty
pending list returns the plain empty chunk without marker. -/
theorem balance_marker_shape_witness :
    (BalanceTransform.addImpl id ⟨⟨10, 0⟩, [[0]], []⟩ []).1
      = ⟨[], 0, (none : Option (ChunksToSquash Nat))⟩ :=
  (balance_marker_shape id ⟨⟨10, 0⟩, [[0]], []⟩ []).2 rfl rfl

/-- Clone of an input block as the raw chunk the balancer stores. -/
def rawOf (b : Block α) : RawChunk α := ⟨b, blockRows b⟩

/-- The pending list immediately after the candidate batch is appended
(cleared first when the list was already big enough at entry). -/
def pendingAfterPush (sz : α → Nat) (st : BalanceTransform α) (b : Block α) :
    List (RawChunk α) :=
  (if isEnoughSizeRB st.params (vecRows st.chunks_to_merge_vec)
      (vecBytes sz st.chunks_to_merge_vec) then [] else st.chunks_to_merge_vec)
    ++ [rawOf b]

/-- Claim C5 (amended): on every non-sentinel call the balancer invokes
the gate twice: the first invocation precedes every pending-list
mutation and is passed the cumulative bytes of the pending list WITHOUT
the candidate; the invocation passed the cumulative total including the
candidate happens only after the candidate has been appended (a mutation
precedes it in the event trace). -/
theorem gate_call_order (sz : α → Nat) (st : BalanceTransform α) (b : Block α)
    (hb : chunkTruthy b (blockRows b) = true) :
    (st.addImpl sz b).2.2.head?
        = some (.gateCall (vecBytes sz st.chunks_to_merge_vec))
    ∧ ∃ pre post, (st.addImpl sz b).2.2
        = pre ++ BEvent.gateCall (vecBytes sz (pendingAfterPush sz st b)) :: post
        ∧ BEvent.mutate ∈ pre := by
  have hbf : ¬ (chunkTruthy b (blockRows b) = false) := by simp [hb]
  simp only [BalanceTransform.addImpl, if_neg hbf]
  by_cases he2 : isEnoughSizeRB st.params
      (vecRows ((if isEnoughSizeRB st.params (vecRows st.chunks_to_merge_vec)
          (vecBytes sz st.chunks_to_merge_vec) then []
        else st.chunks_to_merge_vec) ++ [⟨b, blockRows b⟩]))
      (vecBytes sz ((if isEnoughSizeRB st.params (vecRows st.chunks_to_merge_vec)
          (vecBytes sz st.chunks_to_merge_vec) then []
        else st.chunks_to_merge_vec) ++ [⟨b, blockRows b⟩])) = true
  · rw [if_pos he2]
    refine ⟨rfl, ?_⟩
    refine ⟨BEvent.gateCall (vecBytes sz st.chunks_to_merge_vec)
        :: ((if isEnoughSizeRB st.params (vecRows st.chunks_to_merge_vec)
            (vecBytes sz st.chunks_to_merge_vec) then [BEvent.mutate] else [])
          ++ [BEvent.mutate]),
      (BalanceTransform.convertToChunk st
          ((if isEnoughSizeRB st.params (vecRows st.chunks_to_merge_vec)
              (vecBytes sz st.chunks_to_merge_vec) then []
            else st.chunks_to_merge_vec) ++ [⟨b, blockRows b⟩])).2.2, ?_, by simp⟩
    simp [pendingAfterPush, rawOf, List.append_assoc]
  · rw [if_neg he2]
    refine ⟨rfl, ?_⟩
    refine ⟨BEvent.gateCall (vecBytes sz st.chunks_to_merge_vec)
        :: ((if isEnoughSizeRB st.params (vecRows st.chunks_to_merge_vec)
            (vecBytes sz st.chunks_to_merge_vec) then [BEvent.mutate] else [])
          ++ [BEvent.mutate]), [], ?_, by simp⟩
    simp [pendingAfterPush, rawOf, List.append_assoc]

/-- Claim C5 counterexample: with rows threshold 10, a pending list
holding a 1-row 5-byte chunk and a 7-byte candidate, the event trace is
gate(5 bytes, without the candidate), append, gate(12 bytes): no gate
call carrying the prospective total including the candidate occurs before
the pending list is mutated. -/
theorem gate_call_order_counterexample :
    (BalanceTransform.addImpl id ⟨⟨10, 0⟩, [[0]], [⟨[[5]], 1⟩]⟩ [[7]]).2.2
      = [.gateCall 5, .mutate, .gateCall 12]
    ∧ (([BEvent.gateCall 5, .mutate, .gateCall 12].takeWhile
          (fun e => e != BEvent.mutate)).contains (BEvent.gateCall 12)) = false := by
  decide

/-- Witness for claim C5's amended theorem at the same concrete call. -/
theorem gate_call_order_witness :
    (BalanceTransform.addImpl id ⟨⟨10, 0⟩, [[0]], [⟨[[5]], 1⟩]⟩ [[7]]).2.2.head?
      = some (BEvent.gateCall (vecBytes id [⟨[[5]], 1⟩])) :=
  (gate_call_order id ⟨⟨10, 0⟩, [[0]], [⟨[[5]], 1⟩]⟩ [[7]] (by decide)).1

theorem balance_pending_not_enough (sz : α → Nat) (bst : BalanceTransform α)
    (bb : Block α) :
    (bst.addImpl sz bb).2.1.chunks_to_merge_vec = []
    ∨ isEnoughSizeRB bst.params
        (vecRows (bst.addImpl sz bb).2.1.chunks_to_merge_vec)
        (vecBytes sz (bst.addImpl sz bb).2.1.chunks_to_merge_vec) = false := by
  by_cases hbb : chunkTruthy bb (blockRows bb) = false
  · simp only [BalanceTransform.addImpl, if_pos hbb, BalanceTransform.convertToChunk]
    split
    next hv => exact Or.inl (by simpa using List.isEmpty_iff.mp hv)
    next hv => exact Or.inl rfl
  · simp only [BalanceTransform.addImpl, if_neg hbb]
    set v2 := (if isEnoughSizeRB bst.params (vecRows bst.chunks_to_merge_vec)
        (vecBytes sz bst.chunks_to_merge_vec) then []
      else bst.chunks_to_merge_vec) ++ [(⟨bb, blockRows bb⟩ : RawChunk α)] with hv2
    by_cases he2 : isEnoughSizeRB bst.params (vecRows v2) (vecBytes sz v2) = true
    · rw [if_pos he2]
      simp only [BalanceTransform.convertToChunk]
      split
      next hv => exact Or.inl (by simpa using List.isEmpty_iff.mp hv)
      next hv => exact Or.inl rfl
    · rw [if_neg he2]
      right
      simpa using he2

/-- Claim C6 (amended): between calls to add, the Lazy Balancer's pending
list is empty or strictly below the threshold; the Eager Squasher's
buffer is likewise empty or below threshold, except immediately after the
flush-then-replace path, which retains the incoming batch in the buffer
even though that batch already satisfies isEnoughSize. -/
theorem buffer_between_calls (sz : α → Nat) (st : SquashingTransform α)
    (b out : Block α) (st' : SquashingTransform α)
    (h : st.addImpl sz b = .ok (out, st')) :
    (st'.accumulated_block = []
      ∨ isEnoughSizeBlock sz st.params st'.accumulated_block = .ok false
      ∨ (st'.accumulated_block = b ∧ isEnoughSizeBlock sz st.params b = .ok true))
    ∧ ∀ (bst : BalanceTransform α) (bb : Block α),
        (bst.addImpl sz bb).2.1.chunks_to_merge_vec = []
        ∨ isEnoughSizeRB bst.params
            (vecRows (bst.addImpl sz bb).2.1.chunks_to_merge_vec)
            (vecBytes sz (bst.addImpl sz bb).2.1.chunks_to_merge_vec) = false := by
  refine ⟨?_, fun bst bb => balance_pending_not_enough sz bst bb⟩
  unfold SquashingTransform.addImpl at h
  by_cases hbe : b.isEmpty
  · rw [if_pos hbe] at h
    cases h
    exact Or.inl rfl
  · rw [if_neg hbe] at h
    rcases h1 : isEnoughSizeBlock sz st.params b with e | eb
    · rw [h1] at h; cases h
    · rw [h1] at h
      cases eb with
      | true =>
        by_cases hacc : st.accumulated_block.isEmpty
        · rw [if_pos hacc] at h
          cases h
          exact Or.inl (List.isEmpty_iff.mp hacc)
        · rw [if_neg hacc] at h
          cases h
          exact Or.inr (Or.inr ⟨rfl, rfl⟩)
      | false =>
        rcases h2 : isEnoughSizeBlock sz st.params st.accumulated_block with e | ea
        · rw [h2] at h; cases h
        · rw [h2] at h
          cases ea with
          | true =>
            cases h
            exact Or.inr (Or.inl h1)
          | false =>
            rcases h3 : isEnoughSizeBlock sz st.params
                (appendBlock st.accumulated_block b) with e | en
            · rw [h3] at h; cases h
            · rw [h3] at h
              cases en with
              | true => cases h; exact Or.inl rfl
              | false => cases h; exact Or.inr (Or.inl h3)

/-- Claim C6 counterexample: with rows threshold 2, a buffer holding one
1-row batch and an incoming 3-row batch, the call returns the old buffer
and retains the 3-row batch, which already satisfies isEnoughSize, in the
buffer between calls. -/
theorem buffer_between_calls_counterexample :
    SquashingTransform.addImpl id ⟨⟨2, 0⟩, [[1]]⟩ [[5, 6, 7]]
      = .ok ([[1]], ⟨⟨2, 0⟩, [[5, 6, 7]]⟩)
    ∧ isEnoughSizeBlock id ⟨2, 0⟩ [[5, 6, 7]] = .ok true := by decide

/-- Witness for claim C6's amended theorem at the same concrete call. -/
theorem buffer_between_calls_witness :
    (([[5, 6, 7]] : Block Nat) = []
      ∨ isEnoughSizeBlock id (⟨2, 0⟩ : SqParams) [[5, 6, 7]] = .ok false
      ∨ (([[5, 6, 7]] : Block Nat) = [[5, 6, 7]]
          ∧ isEnoughSizeBlock id (⟨2, 0⟩ : SqParams) [[5, 6, 7]] = .ok true)) :=
  (buffer_between_calls id ⟨⟨2, 0⟩, [[1]]⟩ [[5, 6, 7]] [[1]]
    ⟨⟨2, 0⟩, [[5, 6, 7]]⟩ (by decide)).1

/-- State of the deferred squasher (NewSquashingTransform): thresholds
(never consulted by add) and the accumulated block. -/
structure NewSquashingTransform (α : Type) where
  params : SqParams
  accumulated_block : Block α
deriving DecidableEq

/-- Mirrors NewSquashingTransform::append: a chunk with no columns is
skipped; an empty accumulation takes the chunk's columns (the data_types
argument only supplies names and types); otherwise each chunk column is
appended onto the accumulated column at the same position. -/
def newAppend (acc : Block α) (c : RawChunk α) : Block α :=
  if c.columns.isEmpty then acc
  else if acc.isEmpty then c.columns
  else List.zipWith (fun a b => a ++ b) acc c.columns

/-- Mirrors NewSquashingTransform::addImpl: a chunk without attached info
flushes and returns the accumulation; a chunk with a marker appends every
raw chunk of the marker's list in order and then flushes unconditionally,
without consulting the threshold. -/
def NewSquashingTransform.addImpl (st : NewSquashingTransform α)
    (input : Chunk α) : Block α × NewSquashingTransform α :=
  match input.info with
  | none => (st.accumulated_block, { st with accumulated_block := [] })
  | some m =>
      (m.chunks.foldl newAppend st.accumulated_block,
        { st with accumulated_block := [] })

theorem col_newAppend (acc : Block α) (c : RawChunk α) (k : Nat)
    (hacc : acc = [] ∨ acc.length = k)
    (hc : c.columns.length = k ∨ c.columns.length = 0) (i : Nat) :
    col i (newAppend acc c) = col i acc ++ col i c.columns
    ∧ (newAppend acc c = [] ∨ (newAppend acc c).length = k) := by
  by_cases hce : c.columns.isEmpty
  · have hnil : c.columns = [] := List.isEmpty_iff.mp hce
    rw [newAppend, if_pos hce]
    exact ⟨by simp [hnil, col], hacc⟩
  · have hck : c.columns.length = k := by
      rcases hc with hc | hc
      · exact hc
      · exact absurd (List.isEmpty_iff.mpr (List.length_eq_zero.mp hc)) hce
    by_cases hae : acc.isEmpty
    · have hanil : acc = [] := List.isEmpty_iff.mp hae
      rw [newAppend, if_neg hce, if_pos hae]
      exact ⟨by simp [hanil, col], Or.inr hck⟩
    · have hlen : acc.length = k := by
        rcases hacc with hnil | hlen
        · exact absurd (List.isEmpty_iff.mpr hnil) hae
        · exact hlen
      rw [newAppend, if_neg hce, if_neg hae]
      refine ⟨col_zipWith acc c.columns (by rw [hlen, hck]) i, Or.inr ?_⟩
      simp [List.length_zipWith, hlen, hck]

theorem col_foldl_newAppend (k : Nat) (cs : List (RawChunk α)) :
    ∀ acc : Block α, (acc = [] ∨ acc.length = k) →
    (∀ c ∈ cs, c.columns.length = k ∨ c.columns.length = 0) →
    (∀ i, col i (cs.foldl newAppend acc)
        = col i acc ++ catCol i (cs.map RawChunk.columns))
    ∧ (cs.foldl newAppend acc = [] ∨ (cs.foldl newAppend acc).length = k) := by
  induction cs with
  | nil =>
    intro acc hacc hcs
    exact ⟨fun i => by simp [catCol], hacc⟩
  | cons c cs ih =>
    intro acc hacc hcs
    have hone := fun i => col_newAppend acc c k hacc (hcs c (by simp)) i
    have hrec := ih (newAppend acc c) (hone 0).2 (fun x hx => hcs x (by simp [hx]))
    refine ⟨fun i => ?_, by simpa using hrec.2⟩
    rw [List.foldl_cons]
    rw [hrec.1 i, (hone i).1]
    simp [catCol, List.append_assoc]

/-- Claim C9: a call to the deferred squasher whose input carries a
marker returns the previous accumulation followed by the in-order
concatenation of every raw chunk in the marker's list, flushed
unconditionally without re-checking the threshold; a call without a
marker returns exactly the previous accumulation; in both cases the
buffer is empty after the call. -/
theorem new_squashing_add (st : NewSquashingTransform α) (c : Chunk α) (k : Nat)
    (hacc : st.accumulated_block = [] ∨ st.accumulated_block.length = k)
    (hm : ∀ m : ChunksToSquash α, c.info = some m →
        ∀ rc ∈ m.chunks, rc.columns.length = k ∨ rc.columns.length = 0) :
    (st.addImpl c).2.accumulated_block = []
    ∧ (c.info = none → (st.addImpl c).1 = st.accumulated_block)
    ∧ (∀ m : ChunksToSquash α, c.info = some m → ∀ i,
        col i (st.addImpl c).1
          = col i st.accumulated_block
              ++ catCol i (m.chunks.map RawChunk.columns)) := by
  rcases hci : c.info with _ | m
  · refine ⟨?_, ?_, ?_⟩
    · simp [NewSquashingTransform.addImpl, hci]
    · intro _
      simp [NewSquashingTransform.addImpl, hci]
    · intro m' hm'
      cases hm'
  · refine ⟨?_, ?_, ?_⟩
    · simp [NewSquashingTransform.addImpl, hci]
    · intro hn
      cases hn
    · intro m' hm' i
      injection hm' with hmm
      subst hmm
      simp only [NewSquashingTransform.addImpl, hci]
      exact ((col_foldl_newAppend k m.chunks st.accumulated_block hacc
        (hm m hci)).1 i)

/-- Witness for claim C9 at a concrete marker chunk: previous buffer one
column holding 9, marker carrying rows 1,2 then 3. -/
theorem new_squashing_add_witness :
    col 0 ((NewSquashingTransform.addImpl ⟨⟨10, 0⟩, [[9]]⟩
        ⟨[], 0, some ⟨[⟨[[1, 2]], 2⟩, ⟨[[3]], 1⟩]⟩⟩).1)
      = col 0 [[9]]
          ++ catCol 0 (([⟨[[1, 2]], 2⟩, ⟨[[3]], 1⟩] : List (RawChunk Nat)).map
              RawChunk.columns) :=
  (new_squashing_add ⟨⟨10, 0⟩, [[9]]⟩ ⟨[], 0, some ⟨[⟨[[1, 2]], 2⟩, ⟨[[3]], 1⟩]⟩⟩ 1
    (by decide) (by decide)).2.2 ⟨[⟨[[1, 2]], 2⟩, ⟨[[3]], 1⟩]⟩ rfl 0

/-- The raw chunks carried by a chunk's marker (empty when no marker). -/
def markerChunksOf (c : Chunk α) : List (RawChunk α) :=
  match c.info with
  | none => []
  | some m => m.chunks

/-- Feed a list of blocks one at a time through the balancer, collecting
every returned chunk. -/
def BalanceTransform.runAdds (sz : α → Nat) :
    BalanceTransform α → List (Block α) → List (Chunk α) × BalanceTransform α
  | st, [] => ([], st)
  | st, b :: bs =>
      let r := st.addImpl sz b
      let rest := BalanceTransform.runAdds sz r.2.1 bs
      (r.1 :: rest.1, rest.2)

/-- Feed a list of blocks and then the end-of-stream sentinel through the
balancer, collecting every returned chunk, the final drain included. -/
def BalanceTransform.feedAll (sz : α → Nat) (st : BalanceTransform α)
    (inputs : List (Block α)) : List (Chunk α) :=
  (BalanceTransform.runAdds sz st inputs).1
    ++ [((BalanceTransform.runAdds sz st inputs).2.addImpl sz ([] : Block α)).1]

/-- Feed a list of chunks one at a time through the deferred squasher. -/
def NewSquashingTransform.runAdds :
    NewSquashingTransform α → List (Chunk α) →
    List (Block α) × NewSquashingTransform α
  | st, [] => ([], st)
  | st, c :: cs =>
      let r := st.addImpl c
      let rest := NewSquashingTransform.runAdds r.2 cs
      (r.1 :: rest.1, rest.2)

/-- The two-stage pipeline: run the balancer over the batches and the
sentinel, keep the chunks that carry a deferred-squash marker, and pipe
them into a deferred squasher built with the same thresholds. -/
def pipeline (sz : α → Nat) (p : SqParams) (header : Block α)
    (inputs : List (Block α)) : List (Block α) :=
  (NewSquashingTransform.runAdds ⟨p, []⟩
    ((BalanceTransform.feedAll sz ⟨p, header, []⟩ inputs).filter
      (fun c => c.info.isSome))).1

theorem catCol_cons (i : Nat) (b : Block α) (bs : List (Block α)) :
    catCol i (b :: bs) = col i b ++ catCol i bs := by simp [catCol]

theorem catCol_append (i : Nat) (xs ys : List (Block α)) :
    catCol i (xs ++ ys) = catCol i xs ++ catCol i ys := by simp [catCol]

theorem balance_addImpl_data (sz : α → Nat) (st : BalanceTransform α) (b : Block α)
    (hb : ¬ (chunkTruthy b (blockRows b) = false))
    (hinv : st.chunks_to_merge_vec = []
      ∨ isEnoughSizeRB st.params (vecRows st.chunks_to_merge_vec)
          (vecBytes sz st.chunks_to_merge_vec) = false) :
    markerChunksOf (st.addImpl sz b).1 ++ (st.addImpl sz b).2.1.chunks_to_merge_vec
      = st.chunks_to_merge_vec ++ [rawOf b]
    ∧ (st.addImpl sz b).2.1.params = st.params := by
  simp only [BalanceTransform.addImpl, if_neg hb]
  have hv1 : (if isEnoughSizeRB st.params (vecRows st.chunks_to_merge_vec)
      (vecBytes sz st.chunks_to_merge_vec) then [] else st.chunks_to_merge_vec)
      = st.chunks_to_merge_vec := by
    rcases hinv with hinv | hinv
    · rw [hinv]
      simp
    · rw [if_neg (by simp [hinv])]
  rw [hv1]
  set v2 := st.chunks_to_merge_vec ++ [(⟨b, blockRows b⟩ : RawChunk α)] with hv2def
  by_cases he2 : isEnoughSizeRB st.params (vecRows v2) (vecBytes sz v2) = true
  · rw [if_pos he2]
    have hne : ¬ (v2.isEmpty = true) := by simp [hv2def]
    simp only [BalanceTransform.convertToChunk, if_neg hne]
    exact ⟨by simp [markerChunksOf, rawOf, hv2def], by trivial⟩
  · rw [if_neg he2]
    exact ⟨by simp [markerChunksOf, rawOf, hv2def], by trivial⟩

theorem balance_runAdds_data (sz : α → Nat) (inputs : List (Block α)) :
    ∀ st : BalanceTransform α,
    (∀ b ∈ inputs, b.isEmpty = false) →
    (st.chunks_to_merge_vec = []
      ∨ isEnoughSizeRB st.params (vecRows st.chunks_to_merge_vec)
          (vecBytes sz st.chunks_to_merge_vec) = false) →
    ((BalanceTransform.runAdds sz st inputs).1.map markerChunksOf).flatten
        ++ (BalanceTransform.runAdds sz st inputs).2.chunks_to_merge_vec
      = st.chunks_to_merge_vec ++ inputs.map rawOf
    ∧ (BalanceTransform.runAdds sz st inputs).2.params = st.params := by
  induction inputs with
  | nil =>
    intro st _ _
    exact ⟨by simp [BalanceTransform.runAdds], rfl⟩
  | cons b bs ih =>
    intro st hin hinv
    have hbt : ¬ (chunkTruthy b (blockRows b) = false) := by
      have hbe := hin b (by simp)
      simp [chunkTruthy, hbe]
    have hstep := balance_addImpl_data sz st b hbt hinv
    have hinv' : (st.addImpl sz b).2.1.chunks_to_merge_vec = []
        ∨ isEnoughSizeRB (st.addImpl sz b).2.1.params
            (vecRows (st.addImpl sz b).2.1.chunks_to_merge_vec)
            (vecBytes sz (st.addImpl sz b).2.1.chunks_to_merge_vec) = false := by
      rcases balance_pending_not_enough sz st b with h | h
      · exact Or.inl h
      · right
        rw [hstep.2]
        exact h
    have hrec := ih (st.addImpl sz b).2.1 (fun x hx => hin x (by simp [hx])) hinv'
    constructor
    · simp only [BalanceTransform.runAdds, List.map_cons, List.flatten_cons]
      rw [List.append_assoc, hrec.1, ← List.append_assoc, hstep.1]
      simp
    · simp only [BalanceTransform.runAdds]
      rw [hrec.2, hstep.2]

theorem balance_feedAll_data (sz : α → Nat) (p : SqParams) (header : Block α)
    (inputs : List (Block α)) (hin : ∀ b ∈ inputs, b.isEmpty = false) :
    ((BalanceTransform.feedAll sz ⟨p, header, []⟩ inputs).map markerChunksOf).flatten
      = inputs.map rawOf := by
  have hrun := balance_runAdds_data sz inputs ⟨p, header, []⟩ hin (Or.inl rfl)
  have hrun1 : ((BalanceTransform.runAdds sz ⟨p, header, []⟩ inputs).1.map
        markerChunksOf).flatten
      ++ (BalanceTransform.runAdds sz ⟨p, header, []⟩ inputs).2.chunks_to_merge_vec
      = inputs.map rawOf := by simpa using hrun.1
  simp only [BalanceTransform.feedAll, List.map_append, List.flatten_append,
    List.map_cons, List.flatten_cons, List.map_nil, List.flatten_nil,
    List.append_nil]
  have hsent : chunkTruthy ([] : Block α) (blockRows ([] : Block α)) = false := rfl
  set st' := (BalanceTransform.runAdds sz ⟨p, header, []⟩ inputs).2 with hst'
  simp only [BalanceTransform.addImpl, if_pos hsent]
  by_cases hv : st'.chunks_to_merge_vec.isEmpty
  · have hnil : st'.chunks_to_merge_vec = [] := List.isEmpty_iff.mp hv
    simp only [BalanceTransform.convertToChunk, if_pos hv]
    rw [hnil] at hrun1
    simpa [markerChunksOf] using hrun1
  · simp only [BalanceTransform.convertToChunk, if_neg hv]
    simpa [markerChunksOf] using hrun1

theorem new_runAdds_cols (k : Nat) (cs : List (Chunk α)) :
    ∀ st : NewSquashingTransform α,
    st.accumulated_block = [] →
    (∀ c ∈ cs, ∀ rc ∈ markerChunksOf c,
        rc.columns.length = k ∨ rc.columns.length = 0) →
    ∀ i, catCol i (NewSquashingTransform.runAdds st cs).1
        = catCol i (((cs.map markerChunksOf).flatten).map RawChunk.columns) := by
  induction cs with
  | nil =>
    intro st hacc hcs i
    simp [NewSquashingTransform.runAdds, catCol]
  | cons c cs ih =>
    intro st hacc hcs i
    have hstep : (st.addImpl c).2.accumulated_block = []
        ∧ col i (st.addImpl c).1
          = catCol i ((markerChunksOf c).map RawChunk.columns) := by
      rcases hci : c.info with _ | m
      · constructor
        · simp [NewSquashingTransform.addImpl, hci]
        · simp [NewSquashingTransform.addImpl, hci, markerChunksOf, hacc,
            catCol, col]
      · constructor
        · simp [NewSquashingTransform.addImpl, hci]
        · have hc' : ∀ rc ∈ m.chunks,
              rc.columns.length = k ∨ rc.columns.length = 0 := by
            intro rc hrc
            exact (hcs c (by simp)) rc (by simp [markerChunksOf, hci, hrc])
          simp only [NewSquashingTransform.addImpl, hci]
          rw [(col_foldl_newAppend k m.chunks st.accumulated_block
            (Or.inl hacc) hc').1 i]
          rw [hacc]
          simp [col, markerChunksOf, hci]
    have hrec := ih (st.addImpl c).2 hstep.1
      (fun x hx => hcs x (by simp [hx])) i
    simp only [NewSquashingTransform.runAdds]
    rw [catCol_cons, hstep.2, hrec]
    simp only [List.map_cons, List.flatten_cons, List.map_append]
    rw [catCol_append]

theorem filter_markers_flatten (cs : List (Chunk α)) :
    ((cs.filter (fun c => c.info.isSome)).map markerChunksOf).flatten
      = (cs.map markerChunksOf).flatten := by
  induction cs with
  | nil => rfl
  | cons c cs ih =>
    by_cases h : c.info.isSome
    · simp [List.filter_cons, h, ih]
    · have hempty : markerChunksOf c = [] := by
        rcases hc : c.info with _ | m
        · simp [markerChunksOf, hc]
        · rw [hc] at h
          simp at h
      simp [List.filter_cons, h, hempty, ih]

theorem marker_mem_flatten (cs : List (Chunk α)) (c : Chunk α) (rc : RawChunk α)
    (hc : c ∈ cs) (hrc : rc ∈ markerChunksOf c) :
    rc ∈ (cs.map markerChunksOf).flatten := by
  rw [List.mem_flatten]
  exact ⟨markerChunksOf c, List.mem_map_of_mem _ hc, hrc⟩

/-- Claim C3: with identical thresholds, feeding a sequence of batches
(and the sentinel) through the balancer and piping every emitted marker
chunk into the deferred squasher yields, column for column, exactly the
same concatenated data as feeding the sequence directly into the eager
squasher. -/
theorem marker_roundtrip (sz : α → Nat) (p : SqParams) (header : Block α)
    (k : Nat) (inputs eagerOuts : List (Block α))
    (hk : 0 < k) (hin : ∀ b ∈ inputs, b.length = k)
    (heager : SquashingTransform.feedAll sz ⟨p, []⟩ inputs = .ok eagerOuts) :
    ∀ i, catCol i (pipeline sz p header inputs) = catCol i eagerOuts := by
  intro i
  rw [squash_feedAll_cols sz p k inputs eagerOuts hk hin heager i]
  have hne : ∀ b ∈ inputs, b.isEmpty = false := by
    intro b hb
    have hb' := hin b hb
    cases b with
    | nil =>
      rw [← hb'] at hk
      simp at hk
    | cons x xs => rfl
  have hflat := balance_feedAll_data sz p header inputs hne
  have hlens : ∀ rc ∈ ((BalanceTransform.feedAll sz ⟨p, header, []⟩ inputs).map
      markerChunksOf).flatten, rc.columns.length = k := by
    rw [hflat]
    intro rc hrc
    rw [List.mem_map] at hrc
    obtain ⟨b, hb, hbe⟩ := hrc
    rw [← hbe]
    exact hin b hb
  have hcond : ∀ c ∈ (BalanceTransform.feedAll sz ⟨p, header, []⟩ inputs).filter
        (fun c => c.info.isSome),
      ∀ rc ∈ markerChunksOf c,
        rc.columns.length = k ∨ rc.columns.length = 0 := by
    intro c hc rc hrc
    exact Or.inl (hlens rc (marker_mem_flatten _ c rc (List.mem_of_mem_filter hc) hrc))
  unfold pipeline
  rw [new_runAdds_cols k _ ⟨p, []⟩ rfl hcond i]
  rw [filter_markers_flatten]
  rw [hflat]
  simp only [catCol, List.map_map]
  rfl

/-- Witness for claim C3 on a concrete run: rows threshold 2, two 1-row
batches; the balancer emits one marker, the deferred squasher produces
the same 2-row column as the eager squasher. -/
theorem marker_roundtrip_witness :
    catCol 0 (pipeline id ⟨2, 0⟩ [[0]] [[[1]], [[2]]])
      = catCol 0 ([[], [[1, 2]], []] : List (Block Nat)) :=
  marker_roundtrip id ⟨2, 0⟩ [[0]] 1 [[[1]], [[2]]] [[], [[1, 2]], []]
    (by decide) (by decide) (by decide) 0

end SquashSpec
